import Mathlib

/-! Shallow embedding of `engineioxide/src/transport/polling/payload/encoder.rs`
(socketioxide repository): the engine.io HTTP long-polling payload encoders.

The encoder file is embedded function by function.  The packet type, its
serializer and size estimator, the peekable packet channel and the payload
struct live outside the embedded file; they are modelled from the
specification (its sections 3 and 6), their concrete values pinned down by
the unit tests that sit inside the embedded encoder file itself.

Asynchrony is made explicit: every channel operation takes and returns the
queue state, and the blocking `recv` additionally receives the list of
packets that arrive while the call is suspended.  `EncodeResult.blocked`
marks the execution that suspends forever (empty open queue, no arrival). -/

namespace PayloadEncoder

/-- Modelled from the spec: the packet tagged union (spec section 3).  `opn` is
the Open variant (`open` is a Lean keyword); it carries its serialized payload
text.  `binary` is the current-generation binary variant, `binaryV3` the
legacy-only one; bytes are `Nat` values below 256. -/
inductive Packet where
  | opn (payload : String)
  | close
  | ping
  | pong
  | upgrade
  | noop
  | message (msg : String)
  | binary (data : List Nat)
  | binaryV3 (data : List Nat)
  deriving DecidableEq, Repr

/-- UTF-8 encoding of one unicode scalar value as its list of bytes. -/
def utf8Char (c : Char) : List Nat :=
  let n := c.toNat
  if n < 0x80 then [n]
  else if n < 0x800 then [0xC0 + n / 0x40, 0x80 + n % 0x40]
  else if n < 0x10000 then
    [0xE0 + n / 0x1000, 0x80 + n / 0x40 % 0x40, 0x80 + n % 0x40]
  else
    [0xF0 + n / 0x40000, 0x80 + n / 0x1000 % 0x40, 0x80 + n / 0x40 % 0x40, 0x80 + n % 0x40]

/-- UTF-8 bytes of a string (Rust strings and byte buffers are byte oriented,
so `data.len()` and `push_str` in the source count and append these bytes). -/
def utf8 (s : String) : List Nat :=
  s.data.foldr (fun c acc => utf8Char c ++ acc) []

/-- Modelled from the spec: character of one 6-bit group in the standard base64
alphabet (spec section 6 inlines binary packets as standard base64 text). -/
def b64Char (n : Nat) : Char :=
  "ABCDEFGHIJKLMNOPQRSTUVWXYZabcdefghijklmnopqrstuvwxyz0123456789+/".data.getD n 'A'

/-- Modelled from the spec: standard base64 with `=` padding of a byte list. -/
def base64 : List Nat → List Char
  | [] => []
  | [a] => [b64Char (a / 4), b64Char (a % 4 * 16), '=', '=']
  | [a, b] => [b64Char (a / 4), b64Char (a % 4 * 16 + b / 16), b64Char (b % 16 * 4), '=']
  | a :: b :: c :: rest =>
      b64Char (a / 4) :: b64Char (a % 4 * 16 + b / 16) ::
        b64Char (b % 16 * 4 + c / 64) :: b64Char (c % 64) :: base64 rest

/-- Modelled from the spec: the packet serializer (spec sections 3 and 6): a
text/control packet is a single decimal type-code digit followed by its payload
text, a binary packet is the letter b followed by standard base64.  The legacy
BinaryV3 text form carries the message type digit 4 after the b, as pinned by
the embedded unit tests (expected fragments `10:b4AQIDBA==` vs `bAQIDBA==`). -/
def Packet.serialize : Packet → String
  | .opn payload => "0" ++ payload
  | .close => "1"
  | .ping => "2"
  | .pong => "3"
  | .message msg => "4" ++ msg
  | .upgrade => "5"
  | .noop => "6"
  | .binary b => "b" ++ String.mk (base64 b)
  | .binaryV3 b => "b4" ++ String.mk (base64 b)

/-- Modelled from the spec: true exactly for the two binary variants (spec
section 3). -/
def Packet.is_binary : Packet → Bool
  | .binary _ => true
  | .binaryV3 _ => true
  | _ => false

/-- Modelled from the spec: the estimated wire-encoded byte length of a packet
(spec section 3), consistent with the serializer: in base64-capable mode the
estimate is the serialized text's byte length; in raw-binary mode a binary
packet costs one type byte plus its raw bytes. -/
def Packet.get_size_hint (p : Packet) (b64 : Bool) : Nat :=
  match p, b64 with
  | .binary b, false => 1 + b.length
  | .binaryV3 b, false => 1 + b.length
  | p, _ => (utf8 p.serialize).length

/-- Modelled from the spec: the outbound packet queue (the source's
`PeekableReceiver` behind its mutex guard): an ordered buffer of pending
packets plus a permanently-closed flag.  Per spec section 3, after `close` all
further peek/try_take/take calls report closed/empty rather than suspending. -/
structure Queue where
  buf : List Packet
  closed : Bool
  deriving DecidableEq, Repr

/-- Modelled from the spec: read-only peek at the next observable packet. -/
def Queue.peek (q : Queue) : Option Packet :=
  if q.closed then none else q.buf.head?

/-- Modelled from the spec: the non-suspending take. -/
def Queue.try_recv (q : Queue) : Option Packet × Queue :=
  if q.closed then (none, q)
  else
    match q.buf with
    | p :: rest => (some p, ⟨rest, q.closed⟩)
    | [] => (none, q)

/-- Modelled from the spec: permanently close the queue (idempotent). -/
def Queue.close (q : Queue) : Queue := ⟨q.buf, true⟩

/-- Result of the blocking take: a packet, the aborted condition (queue closed,
nothing ever available to this call), or suspension forever (open empty queue
and no packet ever arrives). -/
inductive RecvRes where
  | ok (p : Packet) (q : Queue)
  | aborted (q : Queue)
  | blocked
  deriving DecidableEq, Repr

/-- The source's `recv_packet`: the blocking take plus its close handling.  The
packets arriving while the caller is suspended are passed explicitly; a closed
queue reports nothing (spec section 3), which the source maps to `Aborted`. -/
def recv_packet (q : Queue) (arrivals : List Packet) : RecvRes :=
  if q.closed then .aborted q
  else
    match q.buf with
    | p :: rest =>
        if p = Packet.close then .ok p ⟨rest, true⟩ else .ok p ⟨rest, false⟩
    | [] =>
        match arrivals with
        | p :: rest =>
            if p = Packet.close then .ok p ⟨rest, true⟩ else .ok p ⟨rest, false⟩
        | [] => .blocked

/-- Shared tail of `try_recv_packet`: the unconditional non-suspending take,
followed by one extra discarded take and a permanent close when the consumed
packet is the Close variant. -/
def take_and_handle_close (q : Queue) : Option Packet × Queue :=
  match Queue.try_recv q with
  | (some Packet.close, q1) => (some Packet.close, Queue.close (Queue.try_recv q1).2)
  | (some packet, q1) => (some packet, q1)
  | (none, q1) => (none, q1)

/-- The source's `try_recv_packet`: peek the next packet and stop (queue left
untouched) when its size hint would push the payload past `max_payload`;
otherwise take it, with the flush-then-close handling of a consumed Close. -/
def try_recv_packet (q : Queue) (payload_len : Nat) (max_payload : Nat) (b64 : Bool) :
    Option Packet × Queue :=
  match Queue.peek q with
  | some packet =>
      if payload_len + packet.get_size_hint b64 > max_payload then (none, q)
      else take_and_handle_close q
  | none => take_and_handle_close q

/-- Modelled from the spec: payload = raw bytes plus the binary-framing flag. -/
structure Payload where
  data : List Nat
  has_binary : Bool
  deriving DecidableEq, Repr

/-- Outcome of one encode call, with explicit queue state passing. -/
inductive EncodeResult where
  | ok (payload : Payload) (q : Queue)
  | aborted (q : Queue)
  | blocked
  deriving DecidableEq, Repr

/-- Modelled from the spec: the v4 record separator U+001E, as a byte. -/
def PACKET_SEPARATOR_V4 : Nat := 0x1E

/-- Modelled from the spec: the legacy string-frame separator, the colon byte. -/
def STRING_PACKET_SEPARATOR_V3 : Nat := 0x3A

/-- Modelled from the spec: the legacy binary-frame separator byte 0xFF. -/
def BINARY_PACKET_SEPARATOR_V3 : Nat := 0xFF

/-- One opportunistic drain loop, shared by the three encoders: the source's
`while let Some(packet) = try_recv_packet(..)` pattern, with the running state
(the accumulated payload or packet buffer) threaded through `step` and the
budget already consumed read back through `cost`.  The recursion carries an
explicit fuel; every caller passes the queue buffer's length as fuel, which is
always sufficient: an iteration that obtains a packet removes at least one
buffered element, so when the fuel runs out the buffer is already empty and
the next probe would return no packet and leave the state untouched, exactly
what the fuel-exhausted branch returns (`drain_loop_fuel_sufficient` below). -/
def drain_loop {σ : Type} (fuel : Nat) (max_payload : Nat) (cost : σ → Nat) (b64 : Bool)
    (step : Packet → σ → σ) (q : Queue) (s : σ) : σ × Queue :=
  match fuel with
  | 0 => (s, q)
  | fuel + 1 =>
    match try_recv_packet q (cost s) max_payload b64 with
    | (some packet, q') => drain_loop fuel max_payload cost b64 step q' (step packet s)
    | (none, q') => (s, q')

/-- Loop body of the source's `v4_encoder`: serialize the packet and append it,
preceded by the record separator whenever the payload is not empty. -/
def v4_step (p : Packet) (data : List Nat) : List Nat :=
  let s := utf8 p.serialize
  if data.isEmpty then data ++ s else data ++ PACKET_SEPARATOR_V4 :: s

/-- The drain phase of the source's `v4_encoder`: base64-capable budgeting with
`payload_len = data.len() + PUNCTUATION_LEN` (one separator byte allowance). -/
def v4_loop (q : Queue) (max_payload : Nat) : List Nat × Queue :=
  drain_loop q.buf.length max_payload (fun data => data.length + 1) true v4_step q []

/-- The source's `v4_encoder`: drain what fits, and if nothing was encoded,
block for one packet and encode exactly it; the payload is always text. -/
def v4_encoder (q : Queue) (max_payload : Nat) (arrivals : List Packet) : EncodeResult :=
  let r := v4_loop q max_payload
  if r.1.isEmpty then
    match recv_packet r.2 arrivals with
    | .ok p q2 => .ok ⟨r.1 ++ utf8 p.serialize, false⟩ q2
    | .aborted q2 => .aborted q2
    | .blocked => .blocked
  else .ok ⟨r.1, false⟩ r.2

/-- The source's `v3_string_packet_encoder`: append
`<character count><colon><packet text>` to the byte buffer (the count is the
decimal character count of the serialized text, written in ASCII digits). -/
def v3_string_packet_encoder (packet : Packet) (data : List Nat) : List Nat :=
  let s := packet.serialize
  data ++ utf8 (toString s.length) ++ STRING_PACKET_SEPARATOR_V3 :: utf8 s

/-- Number of decimal digits of the packet size bound: the source's
`checked_ilog10().unwrap_or(0) + 1`. -/
def digitCount (n : Nat) : Nat := (Nat.toDigits 10 n).length

/-- The drain phase of the source's `v3_string_encoder`.  The budget argument
`current_size = data.len() + PUNCTUATION_LEN + max_packet_size_len` is computed
once, before the loop, while `data` is still empty, and the same value is
passed on every iteration (the source never updates `current_size`). -/
def v3_string_loop (q : Queue) (max_payload : Nat) : List Nat × Queue :=
  drain_loop q.buf.length max_payload (fun _ => 0 + 2 + digitCount max_payload) true
    (fun p data => v3_string_packet_encoder p data) q []

/-- The source's `v3_string_encoder`: drain under the fixed budget snapshot,
framing every packet with its character-count prefix; if nothing was encoded,
block for one packet and frame exactly it. -/
def v3_string_encoder (q : Queue) (max_payload : Nat) (arrivals : List Packet) :
    EncodeResult :=
  let r := v3_string_loop q max_payload
  if r.1.isEmpty then
    match recv_packet r.2 arrivals with
    | .ok p q2 => .ok ⟨v3_string_packet_encoder p r.1, false⟩ q2
    | .aborted q2 => .aborted q2
    | .blocked => .blocked
  else .ok ⟨r.1, false⟩ r.2

/-- Byte list of the decimal digits of n, one byte per digit, each the raw
digit value 0-9 (the source subtracts 48 from the ASCII digit). -/
def digitsBytes (n : Nat) : List Nat :=
  (Nat.toDigits 10 n).map (fun c => c.toNat - 48)

/-- The source's `v3_bin_packet_encoder`: a 0x01-tagged raw frame (digit bytes
of payload length plus one, the 0xFF separator, the 0x04 message sub-type
byte, then the raw bytes) for the legacy BinaryV3 variant only; every other
packet, the current-generation Binary variant included, is serialized to text
and framed 0x00-tagged (digit bytes of the text's byte length, 0xFF, text). -/
def v3_bin_packet_encoder (packet : Packet) (data : List Nat) : List Nat :=
  match packet with
  | .binaryV3 bin =>
      data ++ 0x1 :: digitsBytes (bin.length + 1) ++
        BINARY_PACKET_SEPARATOR_V3 :: 0x04 :: bin
  | packet =>
      let s := utf8 packet.serialize
      data ++ 0x0 :: digitsBytes s.length ++ BINARY_PACKET_SEPARATOR_V3 :: s

/-- Loop body of the source's `v3_binary_encoder` buffering phase: record
whether a binary packet was seen, grow the size estimate by the packet's
non-base64 hint plus the per-frame overhead allowance
(`max_packet_size_len + PUNCTUATION_LEN`), and buffer the packet. -/
def v3_step (max_packet_size_len : Nat) (p : Packet) (s : Nat × List Packet × Bool) :
    Nat × List Packet × Bool :=
  (s.1 + p.get_size_hint false + max_packet_size_len + 2,
   s.2.1 ++ [p],
   s.2.2 || p.is_binary)

/-- The buffering phase of the source's `v3_binary_encoder`: state is
(estimated_size, packet_buffer, has_binary), budgeted by estimated_size. -/
def v3_binary_loop (q : Queue) (max_payload : Nat) :
    (Nat × List Packet × Bool) × Queue :=
  drain_loop q.buf.length max_payload (fun s => s.1) false
    (v3_step (digitCount max_payload)) q (0, [], false)

/-- The source's `v3_binary_encoder`: buffer the batch, then frame every
buffered packet with the byte-oriented grammar if any buffered packet was
binary and with the legacy text grammar otherwise; if nothing was buffered,
block for one packet and frame it by its own kind, a binary one forcing
`has_binary` to true. -/
def v3_binary_encoder (q : Queue) (max_payload : Nat) (arrivals : List Packet) :
    EncodeResult :=
  let r := v3_binary_loop q max_payload
  let packet_buffer := r.1.2.1
  let has_binary := r.1.2.2
  let data :=
    if has_binary then packet_buffer.foldl (fun d p => v3_bin_packet_encoder p d) []
    else packet_buffer.foldl (fun d p => v3_string_packet_encoder p d) []
  if data.isEmpty then
    match recv_packet r.2 arrivals with
    | .ok p q2 =>
        match p with
        | .binaryV3 bin => .ok ⟨v3_bin_packet_encoder (.binaryV3 bin) data, true⟩ q2
        | .binary bin => .ok ⟨v3_bin_packet_encoder (.binary bin) data, true⟩ q2
        | p => .ok ⟨v3_string_packet_encoder p data, has_binary⟩ q2
    | .aborted q2 => .aborted q2
    | .blocked => .blocked
  else .ok ⟨data, has_binary⟩ r.2

/-! Basic facts about the drain primitive and the queue model. -/

theorem isEmpty_false_of_ne_nil {l : List Nat} (h : l ≠ []) : l.isEmpty = false := by
  cases l with
  | nil => exact absurd rfl h
  | cons a t => rfl

theorem eq_nil_of_isEmpty {l : List Nat} (h : l.isEmpty = true) : l = [] := by
  cases l with
  | nil => rfl
  | cons a t => simp at h

/-- Exhaustive description of `try_recv_packet`: either it returns no packet and
leaves the queue untouched (closed queue, empty buffer, or budget exceeded), or
it consumes the head packet within budget, with the flush-then-close effect
when that head is the Close variant. -/
theorem try_recv_packet_cases (q : Queue) (c mp : Nat) (b : Bool) :
    (try_recv_packet q c mp b = (none, q) ∧
      (q.closed = true ∨ q.buf = [] ∨
        ∃ p rest, q.buf = p :: rest ∧ mp < c + p.get_size_hint b)) ∨
    (∃ p rest, q.buf = p :: rest ∧ q.closed = false ∧ c + p.get_size_hint b ≤ mp ∧
      ((p ≠ Packet.close ∧ try_recv_packet q c mp b = (some p, ⟨rest, false⟩)) ∨
       (p = Packet.close ∧ try_recv_packet q c mp b = (some p, ⟨rest.tail, true⟩)))) := by
  rcases q with ⟨buf, closed⟩
  cases closed
  · cases buf with
    | nil =>
        left
        exact ⟨by simp [try_recv_packet, Queue.peek, Queue.try_recv, take_and_handle_close],
          Or.inr (Or.inl rfl)⟩
    | cons p rest =>
        by_cases hbudget : mp < c + p.get_size_hint b
        · left
          refine ⟨?_, Or.inr (Or.inr ⟨p, rest, rfl, hbudget⟩)⟩
          simp [try_recv_packet, Queue.peek, hbudget]
        · right
          refine ⟨p, rest, rfl, rfl, Nat.le_of_not_lt hbudget, ?_⟩
          by_cases hp : p = Packet.close
          · subst hp
            refine Or.inr ⟨rfl, ?_⟩
            cases rest <;>
              simp [try_recv_packet, Queue.peek, Queue.try_recv, take_and_handle_close,
                Queue.close, hbudget]
          · refine Or.inl ⟨hp, ?_⟩
            cases p <;>
              simp_all [try_recv_packet, Queue.peek, Queue.try_recv, take_and_handle_close]
  · left
    exact ⟨by simp [try_recv_packet, Queue.peek, Queue.try_recv, take_and_handle_close],
      Or.inl rfl⟩

theorem try_recv_packet_none_eq {q : Queue} {c mp : Nat} {b : Bool}
    (h : (try_recv_packet q c mp b).1 = none) : try_recv_packet q c mp b = (none, q) := by
  rcases try_recv_packet_cases q c mp b with ⟨hn, -⟩ | ⟨p, rest, -, -, -, hc⟩
  · exact hn
  · rcases hc with ⟨-, he⟩ | ⟨-, he⟩ <;> rw [he] at h <;> simp at h

theorem try_recv_packet_some {q : Queue} {c mp : Nat} {b : Bool} {p : Packet} {q' : Queue}
    (h : try_recv_packet q c mp b = (some p, q')) :
    c + p.get_size_hint b ≤ mp ∧ q'.buf.length < q.buf.length := by
  rcases try_recv_packet_cases q c mp b with ⟨hn, -⟩ | ⟨p₀, rest, hbuf, -, hle, hc⟩
  · rw [hn] at h; simp at h
  · rcases hc with ⟨-, he⟩ | ⟨-, he⟩ <;> rw [he] at h <;>
      simp only [Prod.mk.injEq, Option.some.injEq] at h
    · obtain ⟨rfl, rfl⟩ := h
      refine ⟨hle, ?_⟩
      rw [hbuf]
      simp
    · obtain ⟨rfl, rfl⟩ := h
      refine ⟨hle, ?_⟩
      rw [hbuf]
      simp [List.length_tail]
      omega

theorem try_recv_packet_nil {q : Queue} (c mp : Nat) (b : Bool) (h : q.buf = []) :
    try_recv_packet q c mp b = (none, q) := by
  rcases try_recv_packet_cases q c mp b with ⟨hn, -⟩ | ⟨p, rest, hbuf, -, -, -⟩
  · exact hn
  · rw [h] at hbuf; simp at hbuf

theorem drain_loop_closed {σ : Type} (fuel mp : Nat) (cost : σ → Nat) (b : Bool)
    (step : Packet → σ → σ) (q : Queue) (s : σ) (h : q.closed = true) :
    drain_loop fuel mp cost b step q s = (s, q) := by
  cases fuel with
  | zero => rfl
  | succ n =>
      have ht : try_recv_packet q (cost s) mp b = (none, q) := by
        rcases try_recv_packet_cases q (cost s) mp b with ⟨hn, -⟩ | ⟨p, rest, -, hcl, -, -⟩
        · exact hn
        · rw [h] at hcl; cases hcl
      simp [drain_loop, ht]

theorem drain_loop_stays {σ : Type} (S : σ → Prop) (mp : Nat) (cost : σ → Nat) (b : Bool)
    (step : Packet → σ → σ) (hstep : ∀ p s, ¬ S (step p s)) :
    ∀ (fuel : Nat) (q : Queue) (s : σ), ¬ S s →
      ¬ S (drain_loop fuel mp cost b step q s).1 := by
  intro fuel
  induction fuel with
  | zero => intro q s h; exact h
  | succ n ih =>
      intro q s h
      rcases htr : try_recv_packet q (cost s) mp b with ⟨op, q'⟩
      cases op with
      | some p =>
          have heq : drain_loop (n + 1) mp cost b step q s =
              drain_loop n mp cost b step q' (step p s) := by
            simp [drain_loop, htr]
          rw [heq]
          exact ih q' (step p s) (hstep p s)
      | none =>
          have heq : drain_loop (n + 1) mp cost b step q s = (s, q') := by
            simp [drain_loop, htr]
          rw [heq]
          exact h

theorem drain_loop_eq_init {σ : Type} (S : σ → Prop) (mp : Nat) (cost : σ → Nat) (b : Bool)
    (step : Packet → σ → σ) (hstep : ∀ p s, ¬ S (step p s)) :
    ∀ (fuel : Nat) (q : Queue) (s : σ), S s →
      S (drain_loop fuel mp cost b step q s).1 →
      drain_loop fuel mp cost b step q s = (s, q) := by
  intro fuel
  cases fuel with
  | zero => intro q s _ _; rfl
  | succ n =>
      intro q s hs hres
      rcases htr : try_recv_packet q (cost s) mp b with ⟨op, q'⟩
      cases op with
      | some p =>
          have heq : drain_loop (n + 1) mp cost b step q s =
              drain_loop n mp cost b step q' (step p s) := by
            simp [drain_loop, htr]
          rw [heq] at hres
          exact absurd hres (drain_loop_stays S mp cost b step hstep n q' (step p s) (hstep p s))
      | none =>
          have h1 : (try_recv_packet q (cost s) mp b).1 = none := by rw [htr]
          have h2 := try_recv_packet_none_eq h1
          rw [htr] at h2
          simp only [Prod.mk.injEq] at h2
          simp [drain_loop, htr, h2.2]

/-- The fuel passed by the encoders (the queue buffer's length) is always
sufficient: one more unit of fuel never changes the result. -/
theorem drain_loop_fuel_sufficient {σ : Type} (mp : Nat) (cost : σ → Nat) (b : Bool)
    (step : Packet → σ → σ) :
    ∀ (fuel : Nat) (q : Queue) (s : σ), q.buf.length ≤ fuel →
      drain_loop (fuel + 1) mp cost b step q s = drain_loop fuel mp cost b step q s := by
  intro fuel
  induction fuel with
  | zero =>
      intro q s h
      have hb : q.buf = [] := List.length_eq_zero.mp (Nat.le_zero.mp h)
      simp [drain_loop, try_recv_packet_nil (cost s) mp b hb]
  | succ n ih =>
      intro q s h
      rcases htr : try_recv_packet q (cost s) mp b with ⟨op, q'⟩
      cases op with
      | some p =>
          have hlt := (try_recv_packet_some htr).2
          have hle : q'.buf.length ≤ n := by omega
          simp only [drain_loop, htr]
          exact ih q' (step p s) hle
      | none => simp [drain_loop, htr]

/-! Nonemptiness of every serialized packet and every frame: the liveness
fallback runs exactly when the drain loop consumed nothing. -/

theorem utf8Char_ne_nil (c : Char) : utf8Char c ≠ [] := by
  simp only [utf8Char]
  split
  · simp
  · split
    · simp
    · split <;> simp

theorem utf8_cons (c : Char) (cs : List Char) :
    utf8 ⟨c :: cs⟩ = utf8Char c ++ utf8 ⟨cs⟩ := rfl

theorem utf8_ne_nil (s : String) (h : s.data ≠ []) : utf8 s ≠ [] := by
  rcases s with ⟨cs⟩
  cases cs with
  | nil => simp at h
  | cons c cs =>
      rw [utf8_cons]
      simp [utf8Char_ne_nil c]

theorem serialize_data_ne_nil (p : Packet) : p.serialize.data ≠ [] := by
  have h0 : "0".data = ['0'] := rfl
  have h4 : "4".data = ['4'] := rfl
  have hb : "b".data = ['b'] := rfl
  have hb4 : "b4".data = ['b', '4'] := rfl
  cases p <;> simp [Packet.serialize, String.data_append, h0, h4, hb, hb4]

theorem utf8_serialize_ne_nil (p : Packet) : utf8 p.serialize ≠ [] :=
  utf8_ne_nil _ (serialize_data_ne_nil p)

theorem v4_step_ne_nil (p : Packet) (d : List Nat) : v4_step p d ≠ [] := by
  simp only [v4_step]
  split <;> simp [utf8_serialize_ne_nil p]

theorem v4_step_length (p : Packet) (d : List Nat) :
    (v4_step p d).length ≤ d.length + 1 + (utf8 p.serialize).length := by
  simp only [v4_step]
  split
  · simp
  · simp
    omega

theorem get_size_hint_true (p : Packet) :
    p.get_size_hint true = (utf8 p.serialize).length := by
  cases p <;> rfl

theorem v3_string_packet_encoder_ne_nil (p : Packet) (d : List Nat) :
    v3_string_packet_encoder p d ≠ [] := by
  simp [v3_string_packet_encoder]

theorem v3_string_packet_encoder_length (p : Packet) (d : List Nat) :
    d.length < (v3_string_packet_encoder p d).length := by
  simp [v3_string_packet_encoder]

theorem v3_bin_packet_encoder_length (p : Packet) (d : List Nat) :
    d.length < (v3_bin_packet_encoder p d).length := by
  cases p <;> simp [v3_bin_packet_encoder]

theorem foldl_length_le (f : List Nat → Packet → List Nat)
    (hf : ∀ d p, d.length ≤ (f d p).length) :
    ∀ (l : List Packet) (d : List Nat), d.length ≤ (l.foldl f d).length := by
  intro l
  induction l with
  | nil => intro d; simp
  | cons p rest ih => intro d; exact le_trans (hf d p) (ih (f d p))

theorem foldl_enc_ne_nil (f : List Nat → Packet → List Nat)
    (hf : ∀ d p, d.length < (f d p).length) :
    ∀ (l : List Packet) (d : List Nat), l ≠ [] → l.foldl f d ≠ [] := by
  intro l
  cases l with
  | nil => intro d h; exact absurd rfl h
  | cons p rest =>
      intro d _ hc
      have h1 : (f d p).length ≤ (rest.foldl f (f d p)).length :=
        foldl_length_le f (fun d p => Nat.le_of_lt (hf d p)) rest (f d p)
      have h2 : 0 < (f d p).length := Nat.lt_of_le_of_lt (Nat.zero_le _) (hf d p)
      have h0 : (rest.foldl f (f d p)).length = 0 := by
        rw [show rest.foldl f (f d p) = (p :: rest).foldl f d from rfl, hc]
        rfl
      omega

/-! Facts about the blocking take and the encoders on a closed queue. -/

theorem recv_packet_aborted {q : Queue} {a : List Packet} {q' : Queue}
    (h : recv_packet q a = .aborted q') : q.closed = true ∧ q' = q := by
  rcases q with ⟨buf, closed⟩
  cases closed
  · cases buf with
    | nil =>
        cases a with
        | nil => simp [recv_packet] at h
        | cons p rest =>
            by_cases hp : p = Packet.close <;> simp [recv_packet, hp] at h
    | cons p rest =>
        by_cases hp : p = Packet.close <;> simp [recv_packet, hp] at h
  · refine ⟨rfl, ?_⟩
    simp [recv_packet] at h
    exact h.symm

theorem closed_encoders (q : Queue) (mp : Nat) (a : List Packet) (h : q.closed = true) :
    v4_encoder q mp a = .aborted q ∧ v3_string_encoder q mp a = .aborted q ∧
      v3_binary_encoder q mp a = .aborted q := by
  have h4 : v4_loop q mp = ([], q) := drain_loop_closed _ _ _ _ _ _ _ h
  have hs : v3_string_loop q mp = ([], q) := drain_loop_closed _ _ _ _ _ _ _ h
  have hbq : v3_binary_loop q mp = ((0, [], false), q) := drain_loop_closed _ _ _ _ _ _ _ h
  have hr : recv_packet q a = .aborted q := by simp [recv_packet, h]
  refine ⟨?_, ?_, ?_⟩
  · simp [v4_encoder, h4, hr]
  · simp [v3_string_encoder, hs, hr]
  · simp [v3_binary_encoder, hbq, hr]

/-! The v4 drain loop keeps the payload within the maximum once one packet is
in, and the has_binary accumulator of the legacy-binary buffering phase. -/

theorem v4_loop_bound (mp : Nat) :
    ∀ (fuel : Nat) (q : Queue) (data : List Nat),
      (data ≠ [] → data.length ≤ mp) →
      (drain_loop fuel mp (fun d => d.length + 1) true v4_step q data).1 ≠ [] →
      (drain_loop fuel mp (fun d => d.length + 1) true v4_step q data).1.length ≤ mp := by
  intro fuel
  induction fuel with
  | zero => intro q data h hne; exact h hne
  | succ n ih =>
      intro q data h hne
      rcases htr : try_recv_packet q (data.length + 1) mp true with ⟨op, q'⟩
      cases op with
      | some p =>
          have hb := (try_recv_packet_some htr).1
          have hstep : (v4_step p data).length ≤ mp := by
            have hl := v4_step_length p data
            rw [get_size_hint_true] at hb
            omega
          have heq : drain_loop (n + 1) mp (fun d => d.length + 1) true v4_step q data =
              drain_loop n mp (fun d => d.length + 1) true v4_step q' (v4_step p data) := by
            simp [drain_loop, htr]
          rw [heq] at hne ⊢
          exact ih q' (v4_step p data) (fun _ => hstep) hne
      | none =>
          have heq : drain_loop (n + 1) mp (fun d => d.length + 1) true v4_step q data =
              (data, q') := by
            simp [drain_loop, htr]
          rw [heq] at hne ⊢
          exact h hne

theorem v3_step_any (mpsl : Nat) (p : Packet) (s : Nat × List Packet × Bool)
    (h : s.2.2 = s.2.1.any Packet.is_binary) :
    (v3_step mpsl p s).2.2 = (v3_step mpsl p s).2.1.any Packet.is_binary := by
  simp [v3_step, h, List.any_append]

theorem v3_binary_loop_any (mp mpsl : Nat) :
    ∀ (fuel : Nat) (q : Queue) (s : Nat × List Packet × Bool),
      s.2.2 = s.2.1.any Packet.is_binary →
      (drain_loop fuel mp (fun s => s.1) false (v3_step mpsl) q s).1.2.2 =
        (drain_loop fuel mp (fun s => s.1) false (v3_step mpsl) q s).1.2.1.any
          Packet.is_binary := by
  intro fuel
  induction fuel with
  | zero => intro q s h; exact h
  | succ n ih =>
      intro q s h
      rcases htr : try_recv_packet q s.1 mp false with ⟨op, q'⟩
      cases op with
      | some p =>
          have heq : drain_loop (n + 1) mp (fun s => s.1) false (v3_step mpsl) q s =
              drain_loop n mp (fun s => s.1) false (v3_step mpsl) q' (v3_step mpsl p s) := by
            simp [drain_loop, htr]
          rw [heq]
          exact ih q' _ (v3_step_any mpsl p s h)
      | none =>
          have heq : drain_loop (n + 1) mp (fun s => s.1) false (v3_step mpsl) q s =
              (s, q') := by
            simp [drain_loop, htr]
          rw [heq]
          exact h

/-! Embedding validation: the unit tests that sit inside the embedded source
file, reproduced byte for byte. -/

theorem src_test_encode_v4_payload :
    v4_encoder ⟨[.message "hello€", .binary [1, 2, 3, 4], .message "hello€"], false⟩
        100000 [] =
      .ok ⟨utf8 "4hello€\x1ebAQIDBA==\x1e4hello€", false⟩ ⟨[], false⟩ := by decide

theorem src_test_max_payload_v4 :
    v4_encoder
        ⟨[.message "hello€", .binary [1, 2, 3, 4], .message "hello€", .message "hello€"],
          false⟩ 10 [] =
      .ok ⟨utf8 "4hello€", false⟩
        ⟨[.binary [1, 2, 3, 4], .message "hello€", .message "hello€"], false⟩ ∧
    v4_encoder ⟨[.binary [1, 2, 3, 4], .message "hello€", .message "hello€"], false⟩ 20 [] =
      .ok ⟨utf8 "bAQIDBA==\x1e4hello€", false⟩ ⟨[.message "hello€"], false⟩ ∧
    v4_encoder ⟨[.message "hello€"], false⟩ 20 [] =
      .ok ⟨utf8 "4hello€", false⟩ ⟨[], false⟩ := by decide

theorem src_test_encode_v3b64_payload :
    v3_string_encoder ⟨[.message "hello€", .binaryV3 [1, 2, 3, 4], .message "hello€"], false⟩
        100000 [] =
      .ok ⟨utf8 "7:4hello€10:b4AQIDBA==7:4hello€", false⟩ ⟨[], false⟩ := by decide

theorem src_test_encode_v3binary_payload :
    v3_binary_encoder
        ⟨[.message "hellooo€", .binaryV3 [1, 2, 3, 4], .message "hello€", .message "hello€"],
          false⟩ 25 [] =
      .ok ⟨[0, 1, 1, 255, 52, 104, 101, 108, 108, 111, 111, 111, 226, 130, 172,
            1, 5, 255, 4, 1, 2, 3, 4], true⟩
        ⟨[.message "hello€", .message "hello€"], false⟩ ∧
    v3_binary_encoder ⟨[.message "hello€", .message "hello€"], false⟩ 25 [] =
      .ok ⟨utf8 "7:4hello€7:4hello€", false⟩ ⟨[], false⟩ := by decide

/-! The claims. -/

/-- C1, corrected, counterexample: the legacy encoders can exceed max_payload
even when the drain loop obtained packets and every size hint is honest.  The
legacy string encoder with max_payload = 20 emits a 35-byte payload from three
drained packets (its budget snapshot never includes the bytes already
written), and the legacy binary encoder with max_payload = 10 emits an 11-byte
payload from one drained packet (the frame's length prefix and separator are
never charged against the final packet). -/
theorem legacy_encoders_exceed_max_payload :
    (v3_string_encoder
        ⟨[.binaryV3 [1, 2, 3, 4], .message "hello€", .message "hello€"], false⟩ 20 [] =
        .ok ⟨utf8 "10:b4AQIDBA==7:4hello€7:4hello€", false⟩ ⟨[], false⟩ ∧
      20 < (utf8 "10:b4AQIDBA==7:4hello€7:4hello€").length) ∧
    (v3_binary_encoder ⟨[.message "12345678"], false⟩ 10 [] =
        .ok ⟨utf8 "9:412345678", false⟩ ⟨[], false⟩ ∧
      10 < (utf8 "9:412345678").length) := by decide

/-- C1, amended: for every v4 encode call in which the opportunistic drain
loop obtains at least one packet (so the liveness fallback is unused), the
byte length of the returned payload data does not exceed max_payload; the
packets' size hints in base64 mode equal their serialized wire sizes by
`get_size_hint_true`.  The legacy encoders do not satisfy this bound. -/
theorem v4_encoder_respects_max_payload (q : Queue) (mp : Nat) (a : List Packet)
    (h : (v4_loop q mp).1 ≠ []) :
    v4_encoder q mp a = .ok ⟨(v4_loop q mp).1, false⟩ (v4_loop q mp).2 ∧
      (v4_loop q mp).1.length ≤ mp := by
  constructor
  · simp [v4_encoder, isEmpty_false_of_ne_nil h]
  · exact v4_loop_bound mp q.buf.length q [] (fun hc => absurd rfl hc) h

/-- C1 witness: a concrete v4 call that drains one packet and stays within the
maximum. -/
theorem v4_encoder_respects_max_payload_witness :
    v4_encoder ⟨[.message "hi"], false⟩ 10 [] =
      .ok ⟨(v4_loop ⟨[.message "hi"], false⟩ 10).1, false⟩
        (v4_loop ⟨[.message "hi"], false⟩ 10).2 ∧
      (v4_loop ⟨[.message "hi"], false⟩ 10).1.length ≤ 10 :=
  v4_encoder_respects_max_payload ⟨[.message "hi"], false⟩ 10 [] (by decide)

/-- C2, counterexample: with the queue left by the first call (the legacy
binary packet and two messages), the second legacy-string call with
max_payload = 20 does not return the claimed text 10:bAQIDBA== followed by one
7:4hello€ frame with one message left queued; the same holds when the binary
packet is the current-generation Binary variant instead of BinaryV3. -/
theorem legacy_string_second_call_not_as_claimed :
    v3_string_encoder
        ⟨[.binaryV3 [1, 2, 3, 4], .message "hello€", .message "hello€"], false⟩ 20 [] ≠
      .ok ⟨utf8 ("10:bAQIDBA==" ++ "7:4hello€"), false⟩ ⟨[.message "hello€"], false⟩ ∧
    v3_string_encoder
        ⟨[.binary [1, 2, 3, 4], .message "hello€", .message "hello€"], false⟩ 20 [] ≠
      .ok ⟨utf8 ("10:bAQIDBA==" ++ "7:4hello€"), false⟩ ⟨[.message "hello€"], false⟩ := by
  decide

/-- C2, amended: the first legacy-string call with max_payload = 10 returns
exactly 7:4hello€ (via the liveness fallback); the second call with
max_payload = 20 returns 10:b4AQIDBA== followed by 7:4hello€ twice — the
legacy serialization of a BinaryV3 packet carries the message-type digit after
the b, and the call drains all three remaining packets because the budget
snapshot is computed once per call, so nothing is left queued. -/
theorem legacy_string_concrete_calls :
    v3_string_encoder
        ⟨[.message "hello€", .binaryV3 [1, 2, 3, 4], .message "hello€", .message "hello€"],
          false⟩ 10 [] =
      .ok ⟨utf8 "7:4hello€", false⟩
        ⟨[.binaryV3 [1, 2, 3, 4], .message "hello€", .message "hello€"], false⟩ ∧
    v3_string_encoder
        ⟨[.binaryV3 [1, 2, 3, 4], .message "hello€", .message "hello€"], false⟩ 20 [] =
      .ok ⟨utf8 ("10:b4AQIDBA==" ++ "7:4hello€" ++ "7:4hello€"), false⟩ ⟨[], false⟩ := by
  decide

/-- C3: whenever the non-suspending drain primitive consumes a Close packet it
discards exactly one further buffered packet and permanently closes the queue;
afterwards every peek and non-suspending take reports nothing and every encode
call on that queue returns Aborted. -/
theorem close_packet_flush_then_close (q : Queue) (payload_len max_payload : Nat)
    (b64 : Bool) (q' : Queue)
    (h : try_recv_packet q payload_len max_payload b64 = (some Packet.close, q')) :
    q'.closed = true ∧ q'.buf = q.buf.tail.tail ∧
      Queue.peek q' = none ∧ (Queue.try_recv q').1 = none ∧
      ∀ (mp : Nat) (a : List Packet),
        v4_encoder q' mp a = .aborted q' ∧ v3_string_encoder q' mp a = .aborted q' ∧
          v3_binary_encoder q' mp a = .aborted q' := by
  rcases try_recv_packet_cases q payload_len max_payload b64 with
    ⟨hn, -⟩ | ⟨p, rest, hbuf, -, -, hc⟩
  · rw [hn] at h; simp at h
  · rcases hc with ⟨hp, he⟩ | ⟨hp, he⟩
    · rw [he] at h
      simp only [Prod.mk.injEq, Option.some.injEq] at h
      exact absurd h.1 hp
    · subst hp
      rw [he] at h
      simp only [Prod.mk.injEq, Option.some.injEq, true_and] at h
      subst h
      refine ⟨rfl, ?_, rfl, rfl, ?_⟩
      · rw [hbuf]
        rfl
      · intro mp a
        exact closed_encoders _ mp a rfl

/-- C3 witness: consuming Close from close, ping, pong discards ping, closes
the queue, and later encode calls abort. -/
theorem close_packet_flush_then_close_witness :
    (⟨[Packet.pong], true⟩ : Queue).closed = true ∧
      v4_encoder ⟨[Packet.pong], true⟩ 7 [] = .aborted ⟨[Packet.pong], true⟩ := by
  have h := close_packet_flush_then_close ⟨[Packet.close, Packet.ping, Packet.pong], false⟩
    0 9 true ⟨[Packet.pong], true⟩ (by decide)
  exact ⟨h.1, (h.2.2.2.2 7 []).1⟩

/-- C4: a v4 encode call whose drain loop obtained nothing suspends on the
blocking take; when that take yields a packet, the call returns exactly that
one packet's serialization with no budget check. -/
theorem liveness_fallback_single_packet (q : Queue) (mp : Nat) (a : List Packet)
    (p : Packet) (q2 : Queue)
    (hdrain : (v4_loop q mp).1 = [])
    (hrecv : recv_packet q a = .ok p q2) :
    v4_encoder q mp a = .ok ⟨utf8 p.serialize, false⟩ q2 := by
  have hinit : v4_loop q mp = ([], q) :=
    drain_loop_eq_init (fun s => s = []) mp _ true v4_step
      (fun p s => v4_step_ne_nil p s) q.buf.length q [] rfl hdrain
  simp [v4_encoder, hinit, hrecv]

/-- C4 witness: a single queued packet whose estimated size (5) exceeds
max_payload (1) is still delivered alone through the fallback. -/
theorem liveness_fallback_single_packet_witness :
    v4_encoder ⟨[.message "aaaa"], false⟩ 1 [] =
      .ok ⟨utf8 (Packet.message "aaaa").serialize, false⟩ ⟨[], false⟩ ∧
    1 < (Packet.message "aaaa").get_size_hint true :=
  ⟨liveness_fallback_single_packet ⟨[.message "aaaa"], false⟩ 1 []
      (.message "aaaa") ⟨[], false⟩ (by decide) (by decide),
    by decide⟩

/-- C5: on a queue that is empty and permanently closed every encoder returns
Aborted with the queue unchanged, and conversely an encoder returns Aborted
only when the queue was already closed (hence observably empty: peek and the
non-suspending take report nothing, whatever arrives later). -/
theorem aborted_iff_closed (q : Queue) (mp : Nat) (a : List Packet) :
    (q.buf = [] → q.closed = true →
      v4_encoder q mp a = .aborted q ∧ v3_string_encoder q mp a = .aborted q ∧
        v3_binary_encoder q mp a = .aborted q) ∧
    (∀ q', v4_encoder q mp a = .aborted q' →
      q.closed = true ∧ Queue.peek q = none ∧ (Queue.try_recv q).1 = none ∧ q' = q) ∧
    (∀ q', v3_string_encoder q mp a = .aborted q' → q.closed = true ∧ Queue.peek q = none) ∧
    (∀ q', v3_binary_encoder q mp a = .aborted q' → q.closed = true ∧ Queue.peek q = none) := by
  refine ⟨fun _ hc => closed_encoders q mp a hc, ?_, ?_, ?_⟩
  · intro q' h
    rcases he : (v4_loop q mp).1.isEmpty with _ | _
    · exfalso
      rw [v4_encoder] at h
      simp only [he] at h
      simp at h
    · have hnil : (v4_loop q mp).1 = [] := eq_nil_of_isEmpty he
      have hinit : v4_loop q mp = ([], q) :=
        drain_loop_eq_init (fun s => s = []) mp _ true v4_step
          (fun p s => v4_step_ne_nil p s) q.buf.length q [] rfl hnil
      rw [v4_encoder] at h
      simp only [hinit, List.isEmpty_nil, if_true] at h
      cases hr : recv_packet q a with
      | ok p q2 => rw [hr] at h; simp at h
      | blocked => rw [hr] at h; simp at h
      | aborted q3 =>
          rw [hr] at h
          simp only [EncodeResult.aborted.injEq] at h
          obtain ⟨hcl, rfl⟩ := recv_packet_aborted hr
          exact ⟨hcl, by simp [Queue.peek, hcl], by simp [Queue.try_recv, hcl], h.symm⟩
  · intro q' h
    rcases he : (v3_string_loop q mp).1.isEmpty with _ | _
    · exfalso
      rw [v3_string_encoder] at h
      simp only [he] at h
      simp at h
    · have hnil : (v3_string_loop q mp).1 = [] := eq_nil_of_isEmpty he
      have hinit : v3_string_loop q mp = ([], q) :=
        drain_loop_eq_init (fun s => s = []) mp _ true
          (fun p data => v3_string_packet_encoder p data)
          (fun p s => v3_string_packet_encoder_ne_nil p s) q.buf.length q [] rfl hnil
      rw [v3_string_encoder] at h
      simp only [hinit, List.isEmpty_nil, if_true] at h
      cases hr : recv_packet q a with
      | ok p q2 => rw [hr] at h; simp at h
      | blocked => rw [hr] at h; simp at h
      | aborted q3 =>
          obtain ⟨hcl, rfl⟩ := recv_packet_aborted hr
          exact ⟨hcl, by simp [Queue.peek, hcl]⟩
  · intro q' h
    rcases hpb : (v3_binary_loop q mp).1.2.1 with _ | ⟨p0, rest⟩
    · have hinit : v3_binary_loop q mp = ((0, [], false), q) :=
        drain_loop_eq_init (fun s => s.2.1 = []) mp _ false (v3_step (digitCount mp))
          (fun p s => by simp [v3_step]) q.buf.length q (0, [], false) rfl hpb
      rw [v3_binary_encoder] at h
      simp only [hinit] at h
      simp only [List.foldl_nil, Bool.false_eq_true, if_false, List.isEmpty_nil, if_true] at h
      cases hr : recv_packet q a with
      | ok p q2 => rw [hr] at h; exfalso; cases p <;> simp at h
      | blocked => rw [hr] at h; simp at h
      | aborted q3 =>
          obtain ⟨hcl, rfl⟩ := recv_packet_aborted hr
          exact ⟨hcl, by simp [Queue.peek, hcl]⟩
    · exfalso
      have hne : (v3_binary_loop q mp).1.2.1 ≠ [] := by rw [hpb]; simp
      rw [v3_binary_encoder] at h
      rcases hfb : (v3_binary_loop q mp).1.2.2 with _ | _ <;> simp only [hfb] at h
      · have hdata : (v3_binary_loop q mp).1.2.1.foldl
            (fun d p => v3_string_packet_encoder p d) [] ≠ [] :=
          foldl_enc_ne_nil _ (fun d p => v3_string_packet_encoder_length p d) _ [] hne
        simp only [Bool.false_eq_true, if_false, isEmpty_false_of_ne_nil hdata] at h
        simp at h
      · have hdata : (v3_binary_loop q mp).1.2.1.foldl
            (fun d p => v3_bin_packet_encoder p d) [] ≠ [] :=
          foldl_enc_ne_nil _ (fun d p => v3_bin_packet_encoder_length p d) _ [] hne
        simp only [if_true, isEmpty_false_of_ne_nil hdata] at h
        simp at h

/-- C5 witness: the empty closed queue makes every encoder abort, and that
abort certifies the closedness through the only-if direction. -/
theorem aborted_iff_closed_witness :
    v4_encoder ⟨[], true⟩ 5 [] = .aborted ⟨[], true⟩ ∧
      v3_string_encoder ⟨[], true⟩ 5 [] = .aborted ⟨[], true⟩ ∧
      v3_binary_encoder ⟨[], true⟩ 5 [] = .aborted ⟨[], true⟩ ∧
      (⟨[], true⟩ : Queue).closed = true := by
  have h := aborted_iff_closed ⟨[], true⟩ 5 []
  have hf := h.1 rfl rfl
  exact ⟨hf.1, hf.2.1, hf.2.2, (h.2.1 ⟨[], true⟩ hf.1).1⟩

/-- C6: when the legacy binary encoder buffers at least one packet, the
has_binary flag equals whether any buffered packet is a binary variant, and
the returned payload frames every buffered packet uniformly: all with the
byte-oriented grammar when the flag is set, all with the length-prefixed text
grammar otherwise, the flag being returned as contains_binary. -/
theorem v3_binary_uniform_framing (q : Queue) (mp : Nat) (a : List Packet)
    (h : (v3_binary_loop q mp).1.2.1 ≠ []) :
    (v3_binary_loop q mp).1.2.2 = (v3_binary_loop q mp).1.2.1.any Packet.is_binary ∧
    v3_binary_encoder q mp a =
      .ok ⟨if (v3_binary_loop q mp).1.2.2 then
              (v3_binary_loop q mp).1.2.1.foldl (fun d p => v3_bin_packet_encoder p d) []
            else
              (v3_binary_loop q mp).1.2.1.foldl (fun d p => v3_string_packet_encoder p d) [],
            (v3_binary_loop q mp).1.2.2⟩
        (v3_binary_loop q mp).2 := by
  constructor
  · exact v3_binary_loop_any mp (digitCount mp) q.buf.length q (0, [], false) rfl
  · cases hfb : (v3_binary_loop q mp).1.2.2 with
    | false =>
        have hdata : (v3_binary_loop q mp).1.2.1.foldl
            (fun d p => v3_string_packet_encoder p d) [] ≠ [] :=
          foldl_enc_ne_nil _ (fun d p => v3_string_packet_encoder_length p d) _ [] h
        simp [v3_binary_encoder, hfb, isEmpty_false_of_ne_nil hdata]
    | true =>
        have hdata : (v3_binary_loop q mp).1.2.1.foldl
            (fun d p => v3_bin_packet_encoder p d) [] ≠ [] :=
          foldl_enc_ne_nil _ (fun d p => v3_bin_packet_encoder_length p d) _ [] h
        simp [v3_binary_encoder, hfb, isEmpty_false_of_ne_nil hdata]

/-- C6 witness: a batch of one text and one legacy binary packet is framed
entirely with the byte-oriented grammar and contains_binary is true. -/
theorem v3_binary_uniform_framing_witness :
    (v3_binary_loop ⟨[.message "hi", .binaryV3 [7]], false⟩ 1000).1.2.2 =
      (v3_binary_loop ⟨[.message "hi", .binaryV3 [7]], false⟩ 1000).1.2.1.any
        Packet.is_binary ∧
    v3_binary_encoder ⟨[.message "hi", .binaryV3 [7]], false⟩ 1000 [] =
      .ok ⟨if (v3_binary_loop ⟨[.message "hi", .binaryV3 [7]], false⟩ 1000).1.2.2 then
              (v3_binary_loop ⟨[.message "hi", .binaryV3 [7]], false⟩ 1000).1.2.1.foldl
                (fun d p => v3_bin_packet_encoder p d) []
            else
              (v3_binary_loop ⟨[.message "hi", .binaryV3 [7]], false⟩ 1000).1.2.1.foldl
                (fun d p => v3_string_packet_encoder p d) [],
            (v3_binary_loop ⟨[.message "hi", .binaryV3 [7]], false⟩ 1000).1.2.2⟩
        (v3_binary_loop ⟨[.message "hi", .binaryV3 [7]], false⟩ 1000).2 :=
  v3_binary_uniform_framing ⟨[.message "hi", .binaryV3 [7]], false⟩ 1000 [] (by decide)

/-- C7: the legacy binary encoder on Message hello-euro then BinaryV3 1,2,3,4
with an effectively unlimited budget returns exactly the twenty claimed bytes
with contains_binary true: a 0x00-tagged text frame with raw digit bytes of
the byte count, the 0xFF separator and the UTF-8 text, then a 0x01-tagged
binary frame whose digit bytes encode payload length plus one, 0xFF, the 0x04
sub-type byte, and the raw bytes. -/
theorem v3_binary_concrete_payload :
    v3_binary_encoder ⟨[.message "hello€", .binaryV3 [1, 2, 3, 4]], false⟩ 100000 [] =
      .ok ⟨[0, 9, 255, 52, 104, 101, 108, 108, 111, 226, 130, 172,
            1, 5, 255, 4, 1, 2, 3, 4], true⟩ ⟨[], false⟩ := by decide

/-- C8: when the peeked packet's size hint plus the budget already consumed
exceeds max_payload, the drain primitive returns no packet and the queue is
returned untouched: the peeked packet is still the next one and the closed
flag is unchanged. -/
theorem over_budget_leaves_queue_untouched (q : Queue) (payload_len max_payload : Nat)
    (b64 : Bool) (p : Packet) (hp : Queue.peek q = some p)
    (hover : max_payload < payload_len + p.get_size_hint b64) :
    try_recv_packet q payload_len max_payload b64 = (none, q) ∧
      Queue.peek (try_recv_packet q payload_len max_payload b64).2 = some p ∧
      (try_recv_packet q payload_len max_payload b64).2.closed = q.closed := by
  have h : try_recv_packet q payload_len max_payload b64 = (none, q) := by
    simp only [try_recv_packet, hp]
    simp [hover]
  exact ⟨h, by rw [h]; exact hp, by rw [h]⟩

/-- C8 witness: a message whose hint (6) exceeds the budget (3) is left
peekable on the untouched open queue. -/
theorem over_budget_leaves_queue_untouched_witness :
    try_recv_packet ⟨[.message "hello"], false⟩ 0 3 true =
      (none, ⟨[.message "hello"], false⟩) ∧
      Queue.peek (try_recv_packet ⟨[.message "hello"], false⟩ 0 3 true).2 =
        some (.message "hello") ∧
      (try_recv_packet ⟨[.message "hello"], false⟩ 0 3 true).2.closed = false :=
  over_budget_leaves_queue_untouched ⟨[.message "hello"], false⟩ 0 3 true
    (.message "hello") (by decide) (by decide)

/-- C9: the legacy binary per-packet framer emits the 0x01 tag and 0x04
sub-type byte for the BinaryV3 variant only; every other packet, the
current-generation Binary variant included, is serialized to its text form and
framed 0x00-tagged — yet in the legacy binary encoder's fallback a Binary
packet still forces contains_binary to true. -/
theorem v3_bin_packet_encoder_tags :
    (∀ (bin : List Nat) (d : List Nat),
        v3_bin_packet_encoder (.binaryV3 bin) d =
          d ++ 0x1 :: digitsBytes (bin.length + 1) ++
            BINARY_PACKET_SEPARATOR_V3 :: 0x04 :: bin) ∧
    (∀ (p : Packet) (d : List Nat), (∀ bin, p ≠ .binaryV3 bin) →
        v3_bin_packet_encoder p d =
          d ++ 0x0 :: digitsBytes (utf8 p.serialize).length ++
            BINARY_PACKET_SEPARATOR_V3 :: utf8 p.serialize) ∧
    (∀ (bin : List Nat) (q : Queue) (mp : Nat) (a : List Packet) (q2 : Queue),
        (v3_binary_loop q mp).1.2.1 = [] →
        recv_packet q a = .ok (.binary bin) q2 →
        v3_binary_encoder q mp a =
          .ok ⟨v3_bin_packet_encoder (.binary bin) [], true⟩ q2) := by
  refine ⟨fun bin d => rfl, ?_, ?_⟩
  · intro p d hp
    cases p with
    | binaryV3 bin => exact absurd rfl (hp bin)
    | _ => rfl
  · intro bin q mp a q2 hbufnil hrecv
    have hinit : v3_binary_loop q mp = ((0, [], false), q) :=
      drain_loop_eq_init (fun s => s.2.1 = []) mp _ false (v3_step (digitCount mp))
        (fun p s => by simp [v3_step]) q.buf.length q (0, [], false) rfl hbufnil
    rw [v3_binary_encoder]
    simp [hinit, hrecv]

/-- C9 witness: the framer's two shapes at concrete packets, and a fallback
Binary packet that is text-framed while still setting contains_binary. -/
theorem v3_bin_packet_encoder_tags_witness :
    v3_bin_packet_encoder (.binaryV3 [9]) [] = [1, 2, 255, 4, 9] ∧
    v3_bin_packet_encoder (.binary [9]) [] = [0, 5, 255] ++ utf8 "bCQ==" ∧
    v3_binary_encoder ⟨[], false⟩ 50 [.binary [9]] =
      .ok ⟨v3_bin_packet_encoder (.binary [9]) [], true⟩ ⟨[], false⟩ := by
  refine ⟨?_, ?_, ?_⟩
  · exact (v3_bin_packet_encoder_tags.1 [9] []).trans (by decide)
  · refine (v3_bin_packet_encoder_tags.2.1 (.binary [9]) [] ?_).trans (by decide)
    intro bin h
    cases h
  · exact v3_bin_packet_encoder_tags.2.2 [9] ⟨[], false⟩ 50 [.binary [9]] ⟨[], false⟩
      (by decide) (by decide)

/-- C10: when the blocking liveness-fallback take returns the Close packet the
queue is permanently closed but, unlike the drain primitive, nothing further
is taken or discarded — every other packet stays buffered — and the Close
packet itself is serialized into the returned payload. -/
theorem recv_close_no_discard (rest : List Packet) (a : List Packet) (mp : Nat)
    (hmp : mp < 2) :
    recv_packet ⟨Packet.close :: rest, false⟩ a = .ok Packet.close ⟨rest, true⟩ ∧
    v4_encoder ⟨Packet.close :: rest, false⟩ mp a =
      .ok ⟨utf8 (Packet.serialize Packet.close), false⟩ ⟨rest, true⟩ := by
  have hrecv : recv_packet ⟨Packet.close :: rest, false⟩ a =
      .ok Packet.close ⟨rest, true⟩ := by
    simp [recv_packet]
  refine ⟨hrecv, ?_⟩
  have hhint : Packet.get_size_hint Packet.close true = 1 := rfl
  have hcond : mp < 1 + Packet.get_size_hint Packet.close true := by
    rw [hhint]; omega
  have htr : try_recv_packet ⟨Packet.close :: rest, false⟩ 1 mp true =
      (none, ⟨Packet.close :: rest, false⟩) := by
    simp [try_recv_packet, Queue.peek, hcond]
  have hloop : v4_loop ⟨Packet.close :: rest, false⟩ mp =
      ([], ⟨Packet.close :: rest, false⟩) := by
    rw [v4_loop]
    simp [drain_loop, htr]
  simp [v4_encoder, hloop, hrecv]

/-- C10 witness: Close at the head of close, ping with max_payload 1 is taken
by the fallback; ping stays queued, the queue is closed, and the payload is
the serialized Close packet. -/
theorem recv_close_no_discard_witness :
    recv_packet ⟨[Packet.close, Packet.ping], false⟩ [] =
      .ok Packet.close ⟨[Packet.ping], true⟩ ∧
    v4_encoder ⟨[Packet.close, Packet.ping], false⟩ 1 [] =
      .ok ⟨utf8 (Packet.serialize Packet.close), false⟩ ⟨[Packet.ping], true⟩ :=
  recv_close_no_discard [Packet.ping] [] 1 (by decide)

end PayloadEncoder
